import Mathlib

/-!
Verification of the capture-buffer and reconstruction engine of a voice
clipping bot.  The development shallowly embeds the audio module
(constants `HEADERS`, `BYTES_PER_MS`, functions `sizeBuffer`, `pcmToWAV`,
`mix16`, `opusToPCM`, `getWAVDuration`) and the sliding-window packet
store (`ClipQueue.add`, `ClipQueue.truncate`).

Modelling conventions:
* Byte buffers that are inspected byte by byte (the WAV container) are
  `List ℕ`, one entry per byte.
* Decoded PCM buffers are `List ℤ`, one entry per signed 16-bit sample.
  Every byte offset the placement loop of `opusToPCM` touches is even
  (the data alignment is a multiple of 4 and the source offset advances
  in steps of 2), so sample granularity is faithful; a buffer of `n`
  samples has `2 * n` bytes.  The byte length of a decoded chunk `c` is
  `2 * c.length`.
* Timestamps and durations are `ℚ` (the source computes with JavaScript
  numbers; the fractional values that arise are exact rationals).
  `Math.floor` and `Math.ceil` become `Int.floor` and `Int.ceil`;
  JavaScript `Math.floor(x / k)` for an integer `x` and positive `k`
  agrees with the Euclidean division `x / k` on `ℤ` used here.
* The external Opus decoder is an explicit parameter of type `Decoder`;
  a decode failure (the JavaScript call throwing) is `Except.error ()`,
  and the embedding of `opusToPCM` propagates it, as the source has no
  exception handler.  The JavaScript return value `null` becomes
  `Option.none` in the `Except.ok` result.
-/

/-- Decidable equality for `Except`, needed to evaluate concrete runs. -/
instance {ε α : Type} [DecidableEq ε] [DecidableEq α] : DecidableEq (Except ε α) := fun a b =>
  match a, b with
  | .ok x, .ok y =>
      if h : x = y then isTrue (by rw [h]) else isFalse (fun hh => h (Except.ok.inj hh))
  | .error x, .error y =>
      if h : x = y then isTrue (by rw [h]) else isFalse (fun hh => h (Except.error.inj hh))
  | .ok _, .error _ => isFalse Except.noConfusion
  | .error _, .ok _ => isFalse Except.noConfusion

/-! ## The WAV container writer -/

/-- Bytes for the RIFF tag, the `TOP` field of the `HEADERS` constant. -/
def HEADERS_TOP : List ℕ := [0x52, 0x49, 0x46, 0x46]

/-- Bytes for the rest of the WAVE format header, the `MIDDLE` field of
the `HEADERS` constant: WAVE and fmt tags, subchunk size 16, PCM format 1,
stereo 2, sample rate 48000, byte rate 192000, block align 4, 16 bits per
sample, and the data tag. -/
def HEADERS_MIDDLE : List ℕ :=
  [0x57, 0x41, 0x56, 0x45,
   0x66, 0x6D, 0x74, 0x20,
   0x10, 0x00, 0x00, 0x00,
   0x01, 0x00,
   0x02, 0x00,
   0x80, 0xBB, 0x00, 0x00,
   0x00, 0xEE, 0x02, 0x00,
   0x04, 0x00,
   0x10, 0x00,
   0x64, 0x61, 0x74, 0x61]

/-- Length of the two fixed header byte blocks, as in the source. -/
def HEADER_LENGTH : ℕ := HEADERS_TOP.length + HEADERS_MIDDLE.length

/-- The source constant `HEADER_LENGTH - 8`. -/
def HEADER_LENGTH_LESS : ℕ := HEADER_LENGTH - 8

/-- Bytes of PCM data per millisecond: 48000 samples per second times 4
bytes per sample frame, divided by 1000. -/
def BYTES_PER_MS : ℕ := 192

/-- Embedding of `sizeBuffer`: the four little-endian bytes written by
`writeUInt32LE`.  The source call throws for a size outside 32 bits; the
theorems that decode the field therefore assume the size fits. -/
def sizeBuffer (size : ℕ) : List ℕ :=
  [size % 256, size / 256 % 256, size / 65536 % 256, size / 16777216 % 256]

/-- Embedding of `pcmToWAV`: concatenates the RIFF tag, the chunk size
field, the format block, the data size field and the raw PCM bytes. -/
def pcmToWAV (rawPCM : List ℕ) : List ℕ :=
  HEADERS_TOP ++ sizeBuffer (HEADER_LENGTH_LESS + rawPCM.length) ++
    HEADERS_MIDDLE ++ sizeBuffer rawPCM.length ++ rawPCM

/-- Embedding of `getWAVDuration`: millisecond duration computed from the
byte length, a JavaScript floating division modelled exactly on `ℚ`. -/
def getWAVDuration (wavData : List ℕ) : ℚ :=
  ((wavData.length : ℚ) - (HEADER_LENGTH : ℚ)) / (BYTES_PER_MS : ℚ)

/-- Value of the little-endian 32-bit field at byte offset `off`. -/
def bytesToNatLE : List ℕ → ℕ
  | [] => 0
  | b :: rest => b + 256 * bytesToNatLE rest

/-- Reads a 32-bit little-endian unsigned field, as `readUInt32LE`. -/
def readUInt32LE (l : List ℕ) (off : ℕ) : ℕ := bytesToNatLE ((l.drop off).take 4)

/-- Reads a 16-bit little-endian unsigned field, as `readUInt16LE`. -/
def readUInt16LE (l : List ℕ) (off : ℕ) : ℕ := bytesToNatLE ((l.drop off).take 2)

/-! ## The reconstruction engine -/

/-- Embedding of `mix16`: keeps the new sample when the present buffer
content is zero, otherwise takes the floored average.  The division is
Euclidean, which for the positive divisor 2 agrees with
`Math.floor((a + b) / 2)`. -/
def mix16 (a b : ℤ) : ℤ :=
  if b = 0 then a else (a + b) / 2

/-- Embedding of `TimestampedOpusPacket`: arrival timestamp, encoded
payload (absent for a speaking-start marker) and the marker flag. -/
structure OpusPacket where
  timestamp : ℚ
  chunk : Option (List ℤ)
  isStart : Bool
deriving DecidableEq

/-- The external decoder interface: decodes an encoded payload to 16-bit
samples or fails (the JavaScript call throwing). -/
abbrev Decoder := Option (List ℤ) → Except Unit (List ℤ)

/-- Embedding of the `currentPCM` record of `opusToPCM`: the timestamp of
the packet that opened the segment and the decoded chunks pushed so far. -/
structure PCMSeg where
  timestampStart : ℚ
  chunks : List (List ℤ)
deriving DecidableEq

/-- State of the packet loop of `opusToPCM`: the finished segments, the
open segment if any, and the running first and last timestamps. -/
structure CollectState where
  segs : List PCMSeg
  current : Option PCMSeg
  first : ℚ
  last : ℚ
deriving DecidableEq

/-- Loop state before the first packet: no segments, both timestamp
bounds at the requested clip start `t0`. -/
def initState (t0 : ℚ) : CollectState := ⟨[], none, t0, t0⟩

/-- The branch of the packet loop that opens a new segment: pushes the
open segment if any, widens the timestamp bounds with the packet
timestamp, and opens a segment with no chunks at that timestamp. -/
def startSeg (st : CollectState) (p : OpusPacket) : CollectState :=
  { segs := st.segs ++ st.current.toList
    current := some ⟨p.timestamp, []⟩
    first := min st.first p.timestamp
    last := max st.last p.timestamp }

/-- One iteration of the packet loop of `opusToPCM`: skip a packet whose
timestamp is outside `[t0, t0 + duration]`; open a segment on a marker
packet or when no segment is open (the packet payload is not decoded in
that branch); otherwise decode the payload, push the chunk on the open
segment and widen the timestamp bounds, the lower one by the chunk
duration `chunkBytes / BYTES_PER_MS` before the packet timestamp. -/
def collectStep (decode : Decoder) (duration t0 : ℚ) (st : CollectState) (p : OpusPacket) :
    Except Unit CollectState :=
  if p.timestamp < t0 ∨ t0 + duration < p.timestamp then .ok st
  else if p.isStart then .ok (startSeg st p)
  else match st.current with
    | none => .ok (startSeg st p)
    | some cur =>
        (decode p.chunk).map fun chunk =>
          { segs := st.segs
            current := some ⟨cur.timestampStart, cur.chunks ++ [chunk]⟩
            first := min st.first (p.timestamp - ((2 * chunk.length : ℕ) : ℚ) / (BYTES_PER_MS : ℚ))
            last := max st.last p.timestamp }

/-- Embedding of the placement while loop of `opusToPCM`.  `dataBytes` is
the byte length of the allocated buffer, `byteOff` the byte offset of the
next write (`dataAlign + pcmOffset` in the source).  The loop stops at the
end of the run or at the first offset at or beyond `dataBytes - 1`; a
16-bit write at even byte offset `o` touches sample `o / 2`. -/
def placeLoop (dataBytes : ℕ) (pcm : List ℤ) (data : List ℤ) (byteOff : ℤ) : List ℤ :=
  match pcm with
  | [] => data
  | s :: rest =>
      if byteOff < (dataBytes : ℤ) - 1 then
        placeLoop dataBytes rest
          (data.set (byteOff.toNat / 2) (mix16 s (data.getD (byteOff.toNat / 2) 0)))
          (byteOff + 2)
      else data

/-- Placement of one segment: concatenate its decoded chunks, compute the
aligned byte offset `Math.floor(Math.ceil((t - first) * BYTES_PER_MS) / 4) * 4`
and run the write loop from there. -/
def placeSeg (first : ℚ) (dataBytes : ℕ) (data : List ℤ) (seg : PCMSeg) : List ℤ :=
  let pcm := seg.chunks.flatten
  let sampleNumber : ℤ := ⌈(seg.timestampStart - first) * (BYTES_PER_MS : ℚ)⌉ / 4
  placeLoop dataBytes pcm data (sampleNumber * 4)

/-- Tail of `opusToPCM` after the packet loop: push the open segment,
return `none` when no segment was collected, otherwise allocate the
zero-filled buffer of `Math.floor((last - first) * BYTES_PER_MS / 4) * 4`
bytes and place every segment into it. -/
def finalize (st : CollectState) : Option (List ℤ) :=
  let pcmPackets := st.segs ++ st.current.toList
  if pcmPackets.isEmpty then none
  else
    let dataBytes : ℕ := (⌊(st.last - st.first) * (BYTES_PER_MS : ℚ) / 4⌋).toNat * 4
    some (pcmPackets.foldl (placeSeg st.first dataBytes) (List.replicate (dataBytes / 2) 0))

/-- Embedding of `opusToPCM`: run the packet loop over the packets in
arrival order, then build the output buffer.  `Except.error ()` is the
decoder throwing; `Except.ok none` is the source returning `null`. -/
def opusToPCM (decode : Decoder) (opusPackets : List OpusPacket) (duration t0 : ℚ) :
    Except Unit (Option (List ℤ)) :=
  (opusPackets.foldlM (collectStep decode duration t0) (initState t0)).map finalize

/-! ## The sliding-window packet store -/

namespace ClipQueue

/-- Embedding of `ClipQueue.truncate`: drop packets from the front while
the front timestamp plus the storage duration is before the latest
timestamp. -/
def truncate (storageDuration latest : ℚ) : List OpusPacket → List OpusPacket
  | [] => []
  | p :: rest =>
      if p.timestamp + storageDuration < latest then truncate storageDuration latest rest
      else p :: rest

/-- Embedding of `ClipQueue.add`: push the packet at the tail, then
truncate with the timestamp of the packet just added. -/
def add (storageDuration : ℚ) (queue : List OpusPacket) (data : OpusPacket) : List OpusPacket :=
  truncate storageDuration data.timestamp (queue ++ [data])

/-- Repeated `add` starting from the empty queue, in arrival order. -/
def addAll (storageDuration : ℚ) (packets : List OpusPacket) : List OpusPacket :=
  packets.foldl (add storageDuration) []

/-- Largest timestamp of a packet list, 0 for the empty list. -/
def maxTimestamp : List OpusPacket → ℚ
  | [] => 0
  | p :: rest => rest.foldl (fun m q => max m q.timestamp) p.timestamp

end ClipQueue

/-- Timestamp order on packets, used to state monotone arrival. -/
def tsLE (a b : OpusPacket) : Prop := a.timestamp ≤ b.timestamp

instance : IsTrans OpusPacket tsLE := ⟨fun _ _ _ h1 h2 => le_trans h1 h2⟩

instance : DecidableRel tsLE := fun a b => inferInstanceAs (Decidable (a.timestamp ≤ b.timestamp))

/-! ## Concrete decoders used to evaluate the engine on sample inputs -/

/-- A decoder that rejects every payload; used on runs that never reach
the decoder. -/
def decReject : Decoder := fun _ => Except.error ()

/-- A decoder producing 480 non-silent samples (960 bytes, 5 ms) for the
payload `[1]`. -/
def dec960 : Decoder := fun c =>
  match c with
  | some [1] => Except.ok (List.replicate 480 1)
  | _ => Except.error ()

/-- A decoder that rejects exactly the payload `[9]` and decodes anything
else to two non-silent samples. -/
def decBadFrame : Decoder := fun c =>
  match c with
  | some [9] => Except.error ()
  | _ => Except.ok [1, 1]

/-- A decoder that echoes present payloads and rejects absent ones. -/
def decEcho : Decoder := fun c =>
  match c with
  | some l => Except.ok l
  | none => Except.error ()

/-- A decoder that echoes present payloads and invents samples for
absent ones; it differs from `decEcho` only on marker payloads. -/
def decEchoMarker : Decoder := fun c =>
  match c with
  | some l => Except.ok l
  | none => Except.ok [7]

/-! ## Container theorems -/

/-- Little-endian recomposition of the four bytes of `sizeBuffer`. -/
lemma bytesToNatLE_sizeBuffer (n : ℕ) : bytesToNatLE (sizeBuffer n) = n % 4294967296 := by
  simp only [sizeBuffer, bytesToNatLE]
  omega

/-- Unfolding of `pcmToWAV` to a flat byte list, with the numeric value
28 of `HEADER_LENGTH_LESS` in the chunk size field. -/
lemma pcmToWAV_flat (pcm : List ℕ) :
    pcmToWAV pcm =
      0x52 :: 0x49 :: 0x46 :: 0x46 ::
      ((28 + pcm.length) % 256) :: ((28 + pcm.length) / 256 % 256) ::
      ((28 + pcm.length) / 65536 % 256) :: ((28 + pcm.length) / 16777216 % 256) ::
      0x57 :: 0x41 :: 0x56 :: 0x45 ::
      0x66 :: 0x6D :: 0x74 :: 0x20 ::
      0x10 :: 0x00 :: 0x00 :: 0x00 ::
      0x01 :: 0x00 ::
      0x02 :: 0x00 ::
      0x80 :: 0xBB :: 0x00 :: 0x00 ::
      0x00 :: 0xEE :: 0x02 :: 0x00 ::
      0x04 :: 0x00 ::
      0x10 :: 0x00 ::
      0x64 :: 0x61 :: 0x74 :: 0x61 ::
      (pcm.length % 256) :: (pcm.length / 256 % 256) ::
      (pcm.length / 65536 % 256) :: (pcm.length / 16777216 % 256) :: pcm := by
  have h28 : HEADER_LENGTH_LESS = 28 := by
    norm_num [HEADER_LENGTH_LESS, HEADER_LENGTH, HEADERS_TOP, HEADERS_MIDDLE]
  simp only [pcmToWAV, h28, HEADERS_TOP, HEADERS_MIDDLE, sizeBuffer,
    List.cons_append, List.nil_append]

/-- Byte length of the container: the 44 header bytes plus the payload. -/
lemma pcmToWAV_length (pcm : List ℕ) : (pcmToWAV pcm).length = pcm.length + 44 := by
  rw [pcmToWAV_flat]
  simp

/-- C1: the spec says wrapping then querying the duration recovers
`pcm.length / BYTES_PER_MS`.  The code computes
`(container.length - HEADER_LENGTH) / BYTES_PER_MS` with
`HEADER_LENGTH = 36`, while `pcmToWAV` emits 44 header bytes
(`HEADER_LENGTH` omits the two 4-byte size fields, contradicting the
source comment that it covers everything except the chunk id and chunk
size), so the result is `(pcm.length + 8) / BYTES_PER_MS`; already the
empty payload gives 1/24 instead of 0. -/
theorem getWAVDuration_pcmToWAV :
    (∀ pcm : List ℕ, getWAVDuration (pcmToWAV pcm) = ((pcm.length : ℚ) + 8) / (BYTES_PER_MS : ℚ))
    ∧ getWAVDuration (pcmToWAV []) = 1 / 24 ∧ (1 / 24 : ℚ) ≠ 0 := by
  have hgen : ∀ pcm : List ℕ,
      getWAVDuration (pcmToWAV pcm) = ((pcm.length : ℚ) + 8) / (BYTES_PER_MS : ℚ) := by
    intro pcm
    have h36 : ((HEADER_LENGTH : ℕ) : ℚ) = 36 := by norm_num [HEADER_LENGTH, HEADERS_TOP, HEADERS_MIDDLE]
    rw [getWAVDuration, pcmToWAV_length, h36]
    push_cast
    ring
  refine ⟨hgen, ?_, by norm_num⟩
  rw [hgen []]
  norm_num [BYTES_PER_MS]

/-- C6: byte-exact layout of the container produced by `pcmToWAV`: the
RIFF tag, the 32-bit little-endian chunk size `HEADER_LENGTH - 8 +
pcm.length`, the WAVE/fmt block declaring PCM (1), stereo (2), 48000 Hz,
block alignment 4 and 16 bits per sample, the data tag, the 32-bit
little-endian payload size `pcm.length`, and the unchanged PCM bytes. -/
theorem pcmToWAV_layout (pcm : List ℕ)
    (h : HEADER_LENGTH_LESS + pcm.length < 4294967296) :
    (pcmToWAV pcm).length = pcm.length + 44
    ∧ (pcmToWAV pcm).take 4 = [0x52, 0x49, 0x46, 0x46]
    ∧ readUInt32LE (pcmToWAV pcm) 4 = HEADER_LENGTH - 8 + pcm.length
    ∧ ((pcmToWAV pcm).drop 8).take 4 = [0x57, 0x41, 0x56, 0x45]
    ∧ readUInt16LE (pcmToWAV pcm) 20 = 1
    ∧ readUInt16LE (pcmToWAV pcm) 22 = 2
    ∧ readUInt32LE (pcmToWAV pcm) 24 = 48000
    ∧ readUInt16LE (pcmToWAV pcm) 32 = 4
    ∧ readUInt16LE (pcmToWAV pcm) 34 = 16
    ∧ ((pcmToWAV pcm).drop 36).take 4 = [0x64, 0x61, 0x74, 0x61]
    ∧ readUInt32LE (pcmToWAV pcm) 40 = pcm.length
    ∧ (pcmToWAV pcm).drop 44 = pcm := by
  have h28 : HEADER_LENGTH_LESS = 28 := by
    norm_num [HEADER_LENGTH_LESS, HEADER_LENGTH, HEADERS_TOP, HEADERS_MIDDLE]
  have h36 : HEADER_LENGTH = 36 := by
    norm_num [HEADER_LENGTH, HEADERS_TOP, HEADERS_MIDDLE]
  rw [h28] at h
  rw [readUInt32LE, readUInt32LE, readUInt32LE, readUInt16LE, readUInt16LE,
    readUInt16LE, readUInt16LE, h36, pcmToWAV_flat]
  refine ⟨?_, by simp, ?_, by simp, by simp [bytesToNatLE], by simp [bytesToNatLE],
    by simp [bytesToNatLE], by simp [bytesToNatLE], by simp [bytesToNatLE],
    by simp, ?_, by simp⟩
  · rw [← pcmToWAV_flat]
    exact pcmToWAV_length pcm
  · simp [bytesToNatLE]
    omega
  · simp [bytesToNatLE]
    omega

/-- Witness for C6 at the concrete payload `[1, 2, 3, 4]`. -/
theorem pcmToWAV_layout_witness :
    HEADER_LENGTH_LESS + ([1, 2, 3, 4] : List ℕ).length < 4294967296
    ∧ readUInt32LE (pcmToWAV [1, 2, 3, 4]) 40 = ([1, 2, 3, 4] : List ℕ).length :=
  ⟨by decide, (pcmToWAV_layout [1, 2, 3, 4] (by decide)).2.2.2.2.2.2.2.2.2.2.1⟩

/-! ## Sliding-window store theorems -/

/-- Eviction structure of `truncate`: the input splits into a stale block
removed from the front (each removed packet older than the window) and the
untouched kept tail. -/
lemma truncate_split (R t : ℚ) :
    ∀ l : List OpusPacket, ∃ removed,
      l = removed ++ ClipQueue.truncate R t l ∧ ∀ p ∈ removed, p.timestamp + R < t := by
  intro l
  induction l with
  | nil => exact ⟨[], rfl, by simp⟩
  | cons p rest ih =>
    by_cases h : p.timestamp + R < t
    · obtain ⟨rem, hsplit, hstale⟩ := ih
      refine ⟨p :: rem, ?_, ?_⟩
      · rw [ClipQueue.truncate, if_pos h, List.cons_append, ← hsplit]
      · intro q hq
        rcases List.mem_cons.mp hq with hq | hq
        · rw [hq]; exact h
        · exact hstale q hq
    · exact ⟨[], by rw [ClipQueue.truncate, if_neg h, List.nil_append], by simp⟩

/-- Truncation keeps a suffix, in particular a sublist. -/
lemma truncate_sublist (R t : ℚ) (l : List OpusPacket) :
    (ClipQueue.truncate R t l).Sublist l := by
  obtain ⟨rem, hsplit, -⟩ := truncate_split R t l
  conv_rhs => rw [hsplit]
  exact List.sublist_append_right rem _

/-- Unfolding of `addAll` over a final packet. -/
lemma addAll_concat (R : ℚ) (qs : List OpusPacket) (p : OpusPacket) :
    ClipQueue.addAll R (qs ++ [p]) =
      ClipQueue.truncate R p.timestamp (ClipQueue.addAll R qs ++ [p]) := by
  rw [ClipQueue.addAll, ClipQueue.addAll, List.foldl_concat]
  rfl

/-- The store built by repeated `add` is a sublist of the packets fed in. -/
lemma addAll_sublist (R : ℚ) :
    ∀ qs : List OpusPacket, (ClipQueue.addAll R qs).Sublist qs := by
  intro qs
  induction qs using List.reverseRecOn with
  | nil => simp [ClipQueue.addAll]
  | append_singleton qs p ih =>
    rw [addAll_concat]
    exact (truncate_sublist R p.timestamp _).trans (ih.append (List.Sublist.refl [p]))

/-- On a list sorted by timestamp, every packet surviving `truncate`
is within the window of the latest timestamp. -/
lemma mem_truncate_ge (R t : ℚ) :
    ∀ l : List OpusPacket, List.Pairwise tsLE l →
      ∀ r ∈ ClipQueue.truncate R t l, t - R ≤ r.timestamp := by
  intro l
  induction l with
  | nil => simp [ClipQueue.truncate]
  | cons p rest ih =>
    intro hpw r hr
    obtain ⟨hp, hrest⟩ := List.pairwise_cons.mp hpw
    rw [ClipQueue.truncate] at hr
    by_cases h : p.timestamp + R < t
    · rw [if_pos h] at hr
      exact ih hrest r hr
    · rw [if_neg h] at hr
      rcases List.mem_cons.mp hr with hr | hr
      · rw [hr]; linarith [not_lt.mp h]
      · have h1 : p.timestamp ≤ r.timestamp := hp r hr
        have h2 := not_lt.mp h
        linarith

/-- A fold of `max` over timestamps stays below any common bound. -/
lemma foldl_max_le :
    ∀ (l : List OpusPacket) (m c : ℚ), m ≤ c → (∀ q ∈ l, q.timestamp ≤ c) →
      List.foldl (fun m q => max m q.timestamp) m l ≤ c := by
  intro l
  induction l with
  | nil => intro m c hm _; simpa using hm
  | cons q rest ih =>
    intro m c hm hq
    rw [List.foldl_cons]
    exact ih _ c (max_le hm (hq q (List.mem_cons_self q rest))) fun r hr =>
      hq r (List.mem_cons_of_mem q hr)

/-- The recorded maximum of a list closed by a latest packet is at most
the timestamp of that packet. -/
lemma maxTimestamp_concat_le (qs : List OpusPacket) (p : OpusPacket)
    (h : ∀ q ∈ qs, q.timestamp ≤ p.timestamp) :
    ClipQueue.maxTimestamp (qs ++ [p]) ≤ p.timestamp := by
  cases qs with
  | nil => simp [ClipQueue.maxTimestamp]
  | cons q rest =>
    rw [List.cons_append, ClipQueue.maxTimestamp]
    exact foldl_max_le (rest ++ [p]) q.timestamp p.timestamp
      (h q (List.mem_cons_self q rest))
      (by
        intro r hr
        rcases List.mem_append.mp hr with hr | hr
        · exact h r (List.mem_cons_of_mem q hr)
        · rw [List.mem_singleton.mp hr])

/-- C2: with a retention window `R` and packets arriving with monotone
timestamps, after every `add` each packet still in the queue has a
timestamp at least the maximum inserted timestamp minus `R`. -/
theorem clipQueue_retention_window (R : ℚ) (ps qs rest : List OpusPacket)
    (hmono : List.Chain' tsLE ps) (hsplit : ps = qs ++ rest) :
    ∀ r ∈ ClipQueue.addAll R qs, ClipQueue.maxTimestamp qs - R ≤ r.timestamp := by
  have hpw : List.Pairwise tsLE ps := List.chain'_iff_pairwise.mp hmono
  rw [hsplit] at hpw
  have hqs : List.Pairwise tsLE qs := (List.pairwise_append.mp hpw).1
  rcases List.eq_nil_or_concat qs with hnil | ⟨qs₀, p, hcat⟩
  · rw [hnil]
    simp [ClipQueue.addAll]
  · rw [List.concat_eq_append] at hcat
    subst hcat
    obtain ⟨hq0, -, hbound0⟩ := List.pairwise_append.mp hqs
    have hbound : ∀ q ∈ qs₀, q.timestamp ≤ p.timestamp := fun q hq =>
      hbound0 q hq p (List.mem_singleton_self p)
    have hsub := addAll_sublist R qs₀
    have hpw2 : List.Pairwise tsLE (ClipQueue.addAll R qs₀ ++ [p]) :=
      List.pairwise_append.mpr
        ⟨List.Pairwise.sublist hsub hq0, List.pairwise_singleton tsLE p,
          fun a ha b hb => by
            rw [List.mem_singleton.mp hb]
            exact hbound a (hsub.subset ha)⟩
    intro r hr
    rw [addAll_concat] at hr
    have hwin := mem_truncate_ge R p.timestamp _ hpw2 r hr
    have hmax := maxTimestamp_concat_le qs₀ p hbound
    linarith

/-- Witness for C2 on three packets with equal timestamps and window 1. -/
theorem clipQueue_retention_window_witness :
    List.Chain' tsLE [OpusPacket.mk 0 none true, OpusPacket.mk 0 (some [1]) false]
    ∧ ([OpusPacket.mk 0 none true, OpusPacket.mk 0 (some [1]) false] =
        [OpusPacket.mk 0 none true] ++ [OpusPacket.mk 0 (some [1]) false])
    ∧ ∀ r ∈ ClipQueue.addAll 1 [OpusPacket.mk 0 none true],
        ClipQueue.maxTimestamp [OpusPacket.mk 0 none true] - 1 ≤ r.timestamp :=
  ⟨by simp [List.chain'_cons, tsLE], rfl,
    clipQueue_retention_window 1
      [OpusPacket.mk 0 none true, OpusPacket.mk 0 (some [1]) false]
      [OpusPacket.mk 0 none true] [OpusPacket.mk 0 (some [1]) false]
      (by simp [List.chain'_cons, tsLE]) rfl⟩

/-- C10: one call of `truncate` removes packets only from the front of
the queue, keeping the survivors in order; every removed packet is
genuinely stale (its timestamp plus the storage duration is before the
latest timestamp), and a packet within the window is never evicted. -/
theorem truncate_evicts_only_stale (R t : ℚ) (l : List OpusPacket) :
    (∃ removed, l = removed ++ ClipQueue.truncate R t l
        ∧ ∀ p ∈ removed, p.timestamp + R < t)
    ∧ ∀ p ∈ l, t ≤ p.timestamp + R → p ∈ ClipQueue.truncate R t l := by
  obtain ⟨rem, hsplit, hstale⟩ := truncate_split R t l
  refine ⟨⟨rem, hsplit, hstale⟩, ?_⟩
  intro p hp hwin
  rw [hsplit] at hp
  rcases List.mem_append.mp hp with hp | hp
  · exact absurd (hstale p hp) (not_lt.mpr hwin)
  · exact hp

/-! ## Mixing rule theorems -/

/-- C3 counterexample: a silent new sample written over a non-zero buffer
value does not leave the buffer value unchanged; `mix16` halves it.  The
claim predicts 4 at this position, the code stores 2. -/
theorem mix16_silence_counterexample : mix16 0 4 = 2 ∧ (2 : ℤ) ≠ 4 := by decide

/-- C3 amended: only when the value already in the buffer (the second
argument) is zero does the written sample pass through unchanged; in
every other case, including a silent new sample over a non-zero buffer
value, the stored value is the floored average. -/
theorem mix16_mixing_rule (a b : ℤ) :
    (b = 0 → mix16 a b = a) ∧ (b ≠ 0 → mix16 a b = ⌊((a : ℚ) + (b : ℚ)) / 2⌋) := by
  constructor
  · intro h
    rw [mix16, if_pos h]
  · intro h
    have hcast : ((a : ℚ) + (b : ℚ)) / 2 = ((a + b : ℤ) : ℚ) / ((2 : ℕ) : ℚ) := by
      push_cast
      ring
    rw [mix16, if_neg h, hcast, Rat.floor_intCast_div_natCast]
    norm_num

/-- Witness for C3 at the samples 3 (new) and 4 (already stored). -/
theorem mix16_mixing_rule_witness :
    ((4 : ℤ) = 0 → mix16 3 4 = 3) ∧ ((4 : ℤ) ≠ 0 → mix16 3 4 = ⌊((3 : ℚ) + (4 : ℚ)) / 2⌋) :=
  mix16_mixing_rule 3 4

/-! ## Placement loop theorems -/

/-- C8: the write loop of `opusToPCM` never grows or shrinks the
allocated buffer, and a sample is stored only when its byte offset is
strictly below `dataBytes - 1`; any sample at or beyond that bound is
silently dropped, leaving the buffer content there untouched. -/
theorem placeLoop_writes_in_bounds (dataBytes : ℕ) (pcm data : List ℤ) (byteOff : ℤ)
    (hlen : dataBytes = 2 * data.length) :
    (placeLoop dataBytes pcm data byteOff).length = data.length
    ∧ ∀ j : ℕ, (placeLoop dataBytes pcm data byteOff).getD j 0 ≠ data.getD j 0 →
        2 * (j : ℤ) < (dataBytes : ℤ) - 1 := by
  induction pcm generalizing data byteOff with
  | nil =>
    rw [placeLoop]
    exact ⟨rfl, fun j h => absurd rfl h⟩
  | cons s rest ih =>
    rw [placeLoop]
    by_cases hg : byteOff < (dataBytes : ℤ) - 1
    · rw [if_pos hg]
      have hlen2 : dataBytes =
          2 * (data.set (byteOff.toNat / 2) (mix16 s (data.getD (byteOff.toNat / 2) 0))).length := by
        rw [List.length_set]
        exact hlen
      obtain ⟨ihlen, ihwrites⟩ := ih _ (byteOff + 2) hlen2
      refine ⟨by rw [ihlen, List.length_set], ?_⟩
      intro j hj
      by_cases hj2 : (placeLoop dataBytes rest
          (data.set (byteOff.toNat / 2) (mix16 s (data.getD (byteOff.toNat / 2) 0)))
          (byteOff + 2)).getD j 0 =
          (data.set (byteOff.toNat / 2) (mix16 s (data.getD (byteOff.toNat / 2) 0))).getD j 0
      · have hne : (data.set (byteOff.toNat / 2)
            (mix16 s (data.getD (byteOff.toNat / 2) 0))).getD j 0 ≠ data.getD j 0 := by
          rw [← hj2]
          exact hj
        have hji : j = byteOff.toNat / 2 := by
          by_contra hji
          exact hne (by
            simp [List.getD_eq_getElem?_getD, List.getElem?_set_ne (Ne.symm hji)])
        subst hji
        rcases le_or_lt 0 byteOff with hpos | hneg
        · omega
        · cases data with
          | nil => simp at hne
          | cons d0 dtl =>
            have h2 : dataBytes = 2 * (dtl.length + 1) := by
              rw [hlen, List.length_cons]
            omega
      · exact ihwrites j hj2
    · rw [if_neg hg]
      exact ⟨rfl, fun j h => absurd rfl h⟩

/-- Witness for C8: a one-sample run into a two-sample buffer. -/
theorem placeLoop_writes_in_bounds_witness :
    (4 : ℕ) = 2 * ([5, 6] : List ℤ).length
    ∧ ((placeLoop 4 [1] [5, 6] 0).length = ([5, 6] : List ℤ).length
      ∧ ∀ j : ℕ, (placeLoop 4 [1] [5, 6] 0).getD j 0 ≠ ([5, 6] : List ℤ).getD j 0 →
          2 * (j : ℤ) < ((4 : ℕ) : ℤ) - 1) :=
  ⟨by decide, placeLoop_writes_in_bounds 4 [1] [5, 6] 0 (by decide)⟩

/-! ## Reconstruction engine theorems -/

/-- Reduction of `Except` bind on a success value. -/
lemma except_bind_ok {ε α β : Type} (a : α) (f : α → Except ε β) :
    (Except.ok a : Except ε α) >>= f = f a := rfl

/-- Reduction of `Except` bind on an error value. -/
lemma except_bind_error {ε α β : Type} (e : ε) (f : α → Except ε β) :
    (Except.error e : Except ε α) >>= f = .error e := rfl

/-- Reduction of `Except.map` on a success value. -/
lemma except_map_ok {ε α β : Type} (f : α → β) (a : α) :
    Except.map f (Except.ok a : Except ε α) = .ok (f a) := rfl

/-- Reduction of `Except.map` on an error value. -/
lemma except_map_error {ε α β : Type} (f : α → β) (e : ε) :
    Except.map f (Except.error e : Except ε α) = .error e := rfl

/-- Reduction of `pure` in the `Except` monad. -/
lemma except_pure {ε α : Type} (a : α) : (pure a : Except ε α) = .ok a := rfl

/-- A packet outside the requested range leaves the loop state alone. -/
lemma collectStep_out (decode : Decoder) (d t0 : ℚ) (st : CollectState) (p : OpusPacket)
    (h : p.timestamp < t0 ∨ t0 + d < p.timestamp) :
    collectStep decode d t0 st p = .ok st := by
  rw [collectStep, if_pos h]

/-- Branch of the loop body for an in-range marker packet. -/
lemma collectStep_isStart (decode : Decoder) (d t0 : ℚ) (st : CollectState) (p : OpusPacket)
    (hr : ¬(p.timestamp < t0 ∨ t0 + d < p.timestamp)) (hs : p.isStart = true) :
    collectStep decode d t0 st p = .ok (startSeg st p) := by
  rw [collectStep, if_neg hr, if_pos hs]

/-- Branch of the loop body for an in-range audio packet arriving with no
open segment: it opens a segment and its payload is not decoded. -/
lemma collectStep_none (decode : Decoder) (d t0 : ℚ) (st : CollectState) (p : OpusPacket)
    (hr : ¬(p.timestamp < t0 ∨ t0 + d < p.timestamp)) (hs : p.isStart = false)
    (hcur : st.current = none) :
    collectStep decode d t0 st p = .ok (startSeg st p) := by
  rw [collectStep, if_neg hr, if_neg (by simp [hs]), hcur]

/-- Branch of the loop body for an in-range audio packet arriving with an
open segment: the payload is decoded and pushed. -/
lemma collectStep_some (decode : Decoder) (d t0 : ℚ) (st : CollectState) (p : OpusPacket)
    (cur : PCMSeg) (hr : ¬(p.timestamp < t0 ∨ t0 + d < p.timestamp)) (hs : p.isStart = false)
    (hcur : st.current = some cur) :
    collectStep decode d t0 st p =
      (decode p.chunk).map fun chunk =>
        { segs := st.segs
          current := some ⟨cur.timestampStart, cur.chunks ++ [chunk]⟩
          first := min st.first (p.timestamp - ((2 * chunk.length : ℕ) : ℚ) / (BYTES_PER_MS : ℚ))
          last := max st.last p.timestamp } := by
  rw [collectStep, if_neg hr, if_neg (by simp [hs]), hcur]

/-- A packet inside the requested range always leaves an open segment
behind, whichever branch of the loop body it takes. -/
lemma collectStep_in_some {decode : Decoder} {d t0 : ℚ} {st st2 : CollectState} {p : OpusPacket}
    (hstep : collectStep decode d t0 st p = .ok st2)
    (h : ¬(p.timestamp < t0 ∨ t0 + d < p.timestamp)) :
    st2.current ≠ none := by
  by_cases hs : p.isStart = true
  · rw [collectStep_isStart decode d t0 st p h hs] at hstep
    injection hstep with hstep
    rw [← hstep]
    simp [startSeg]
  · have hs2 : p.isStart = false := by simpa using hs
    cases hcur : st.current with
    | none =>
      rw [collectStep_none decode d t0 st p h hs2 hcur] at hstep
      injection hstep with hstep
      rw [← hstep]
      simp [startSeg]
    | some cur =>
      rw [collectStep_some decode d t0 st p cur h hs2 hcur] at hstep
      cases hdec : decode p.chunk with
      | error e =>
        rw [hdec, except_map_error] at hstep
        exact absurd hstep (by simp)
      | ok chunk =>
        rw [hdec, except_map_ok] at hstep
        injection hstep with hstep
        rw [← hstep]
        simp

/-- One loop step never closes an open segment. -/
lemma collectStep_current_ne {decode : Decoder} {d t0 : ℚ} {st st2 : CollectState} {p : OpusPacket}
    (hstep : collectStep decode d t0 st p = .ok st2) (hc : st.current ≠ none) :
    st2.current ≠ none := by
  by_cases hr : p.timestamp < t0 ∨ t0 + d < p.timestamp
  · rw [collectStep_out decode d t0 st p hr] at hstep
    injection hstep with hstep
    rw [← hstep]
    exact hc
  · exact collectStep_in_some hstep hr

/-- A run of the packet loop over packets all outside the range returns
the starting state. -/
lemma foldl_skip (decode : Decoder) (d t0 : ℚ) :
    ∀ (ps : List OpusPacket) (st : CollectState),
      (∀ p ∈ ps, p.timestamp < t0 ∨ t0 + d < p.timestamp) →
      ps.foldlM (collectStep decode d t0) st = .ok st := by
  intro ps
  induction ps with
  | nil => intro st _; rfl
  | cons p ps ih =>
    intro st h
    rw [List.foldlM_cons, collectStep_out decode d t0 st p (h p (List.mem_cons_self p ps)),
      except_bind_ok]
    exact ih st fun q hq => h q (List.mem_cons_of_mem p hq)

/-- Once a segment is open, it stays open through the rest of the loop. -/
lemma foldl_current_ne (decode : Decoder) (d t0 : ℚ) :
    ∀ (ps : List OpusPacket) (st st2 : CollectState),
      ps.foldlM (collectStep decode d t0) st = .ok st2 → st.current ≠ none →
      st2.current ≠ none := by
  intro ps
  induction ps with
  | nil =>
    intro st st2 h hc
    rw [List.foldlM_nil, except_pure] at h
    injection h with h
    rw [← h]
    exact hc
  | cons p ps ih =>
    intro st st2 h hc
    rw [List.foldlM_cons] at h
    cases hstep : collectStep decode d t0 st p with
    | error e => rw [hstep, except_bind_error] at h; exact absurd h (by simp)
    | ok st1 =>
      rw [hstep, except_bind_ok] at h
      exact ih st1 st2 h (collectStep_current_ne hstep hc)

/-- If the packet loop finishes with no open segment, every packet was
outside the requested range. -/
lemma foldl_ok_none (decode : Decoder) (d t0 : ℚ) :
    ∀ (ps : List OpusPacket) (st st2 : CollectState),
      ps.foldlM (collectStep decode d t0) st = .ok st2 → st2.current = none →
      ∀ p ∈ ps, p.timestamp < t0 ∨ t0 + d < p.timestamp := by
  intro ps
  induction ps with
  | nil => intro st st2 _ _ p hp; exact absurd hp (List.not_mem_nil p)
  | cons p ps ih =>
    intro st st2 h hnone q hq
    rw [List.foldlM_cons] at h
    cases hstep : collectStep decode d t0 st p with
    | error e => rw [hstep, except_bind_error] at h; exact absurd h (by simp)
    | ok st1 =>
      rw [hstep, except_bind_ok] at h
      rcases List.mem_cons.mp hq with hq | hq
      · subst hq
        by_contra hr
        exact foldl_current_ne decode d t0 ps st1 st2 h (collectStep_in_some hstep hr) hnone
      · exact ih st1 st2 h hnone q hq

/-- C4 amended: `opusToPCM` returns the null result exactly when no input
packet has a timestamp inside `[t0, t0 + duration]`.  In particular the
empty packet list yields the null result; a range that contains only
marker packets yields an allocated (all-silent) buffer, not null. -/
theorem opusToPCM_none_iff (decode : Decoder) (ps : List OpusPacket) (d t0 : ℚ) :
    opusToPCM decode ps d t0 = .ok none ↔
      ∀ p ∈ ps, p.timestamp < t0 ∨ t0 + d < p.timestamp := by
  constructor
  · intro h
    rw [opusToPCM] at h
    cases hfold : ps.foldlM (collectStep decode d t0) (initState t0) with
    | error e =>
      rw [hfold, except_map_error] at h
      exact absurd h (by simp)
    | ok st =>
      rw [hfold, except_map_ok] at h
      injection h with h
      have hnone : st.current = none := by
        rw [finalize] at h
        by_cases he : (st.segs ++ st.current.toList).isEmpty = true
        · have := List.isEmpty_iff.mp he
          have := (List.append_eq_nil.mp this).2
          cases hcur : st.current with
          | none => rfl
          | some cur => rw [hcur] at this; simp [Option.toList] at this
        · rw [if_neg he] at h
          exact absurd h (by simp)
      exact foldl_ok_none decode d t0 ps _ st hfold hnone
  · intro h
    rw [opusToPCM, foldl_skip decode d t0 ps (initState t0) h, except_map_ok]
    rfl

/-- One loop step is unchanged when two decoders agree on the payload of
every non-marker packet it may decode. -/
lemma collectStep_congr (d1 d2 : Decoder) (dur t0 : ℚ) (p : OpusPacket)
    (h : p.isStart = false → d1 p.chunk = d2 p.chunk) (st : CollectState) :
    collectStep d1 dur t0 st p = collectStep d2 dur t0 st p := by
  by_cases hr : p.timestamp < t0 ∨ t0 + dur < p.timestamp
  · rw [collectStep_out d1 dur t0 st p hr, collectStep_out d2 dur t0 st p hr]
  · by_cases hs : p.isStart = true
    · rw [collectStep_isStart d1 dur t0 st p hr hs, collectStep_isStart d2 dur t0 st p hr hs]
    · have hs2 : p.isStart = false := by simpa using hs
      cases hcur : st.current with
      | none =>
        rw [collectStep_none d1 dur t0 st p hr hs2 hcur,
          collectStep_none d2 dur t0 st p hr hs2 hcur]
      | some cur =>
        rw [collectStep_some d1 dur t0 st p cur hr hs2 hcur,
          collectStep_some d2 dur t0 st p cur hr hs2 hcur, h hs2]

/-- The packet loop is unchanged when two decoders agree on the payload
of every non-marker packet of the input. -/
lemma foldl_congr (d1 d2 : Decoder) (dur t0 : ℚ) :
    ∀ (ps : List OpusPacket) (st : CollectState),
      (∀ p ∈ ps, p.isStart = false → d1 p.chunk = d2 p.chunk) →
      ps.foldlM (collectStep d1 dur t0) st = ps.foldlM (collectStep d2 dur t0) st := by
  intro ps
  induction ps with
  | nil => intro st _; rfl
  | cons p ps ih =>
    intro st h
    rw [List.foldlM_cons, List.foldlM_cons,
      collectStep_congr d1 d2 dur t0 p (h p (List.mem_cons_self p ps)) st]
    cases collectStep d2 dur t0 st p with
    | error e => rw [except_bind_error, except_bind_error]
    | ok st1 =>
      rw [except_bind_ok, except_bind_ok]
      exact ih st1 fun q hq => h q (List.mem_cons_of_mem p hq)

/-- C7: the result of `opusToPCM` does not depend on what the decoder
would return on the payload of a marker packet: two decoders that agree
on the payloads of all non-marker packets give identical results, so a
marker packet is never passed to the decoder and contributes no decoded
samples to the output. -/
theorem opusToPCM_marker_never_decoded (d1 d2 : Decoder) (ps : List OpusPacket) (dur t0 : ℚ)
    (h : ∀ p ∈ ps, p.isStart = false → d1 p.chunk = d2 p.chunk) :
    opusToPCM d1 ps dur t0 = opusToPCM d2 ps dur t0 := by
  rw [opusToPCM, opusToPCM, foldl_congr d1 d2 dur t0 ps (initState t0) h]

/-- Witness for C7: two decoders that differ exactly on the absent marker
payload give the same reconstruction. -/
theorem opusToPCM_marker_never_decoded_witness :
    (∀ p ∈ [OpusPacket.mk 0 none true, OpusPacket.mk 1 (some [2]) false],
        p.isStart = false → decEcho p.chunk = decEchoMarker p.chunk)
    ∧ opusToPCM decEcho [OpusPacket.mk 0 none true, OpusPacket.mk 1 (some [2]) false] 10 0 =
        opusToPCM decEchoMarker [OpusPacket.mk 0 none true, OpusPacket.mk 1 (some [2]) false] 10 0 :=
  ⟨by decide, opusToPCM_marker_never_decoded decEcho decEchoMarker
    [OpusPacket.mk 0 none true, OpusPacket.mk 1 (some [2]) false] 10 0 (by decide)⟩

/-- An errored run of the packet loop still errors after more packets. -/
lemma foldlM_error_append (f : CollectState → OpusPacket → Except Unit CollectState) :
    ∀ (ps extra : List OpusPacket) (st : CollectState) (e : Unit),
      ps.foldlM f st = .error e → (ps ++ extra).foldlM f st = .error e := by
  intro ps
  induction ps with
  | nil =>
    intro extra st e h
    rw [List.foldlM_nil, except_pure] at h
    exact absurd h (by simp)
  | cons p ps ih =>
    intro extra st e h
    rw [List.foldlM_cons] at h
    rw [List.cons_append, List.foldlM_cons]
    cases hstep : f st p with
    | error e2 =>
      rw [hstep, except_bind_error] at h
      exact h
    | ok st1 =>
      rw [hstep, except_bind_ok] at h
      rw [except_bind_ok]
      exact ih extra st1 e h

/-- C9 amended: a decoder failure aborts the whole reconstruction; no
packet after the offending one is processed, so appending further packets
cannot change the errored outcome. -/
theorem opusToPCM_error_aborts (decode : Decoder) (ps extra : List OpusPacket) (d t0 : ℚ)
    (h : opusToPCM decode ps d t0 = .error ()) :
    opusToPCM decode (ps ++ extra) d t0 = .error () := by
  rw [opusToPCM] at h ⊢
  cases hfold : ps.foldlM (collectStep decode d t0) (initState t0) with
  | ok st =>
    rw [hfold, except_map_ok] at h
    exact absurd h (by simp)
  | error e2 =>
    cases e2
    rw [foldlM_error_append (collectStep decode d t0) ps extra (initState t0) () hfold,
      except_map_error]

/-- Finishing the engine on a single segment with no decoded chunks:
the buffer is allocated from the timestamp bounds and stays entirely
silent, since there is nothing to place. -/
lemma finalize_single_empty (ts f l : ℚ) :
    finalize ⟨[], some ⟨ts, []⟩, f, l⟩ =
      some (List.replicate ((⌊(l - f) * (BYTES_PER_MS : ℚ) / 4⌋).toNat * 4 / 2) 0) := by
  rw [finalize]
  norm_num [Option.toList, placeSeg, placeLoop]

/-- Evaluation of the engine on one in-range marker packet at t = 5 with
duration 10 from t0 = 0: a 960-byte silent buffer, not the null result. -/
lemma opusToPCM_marker_only_eval :
    opusToPCM decReject [OpusPacket.mk 5 none true] 10 0 =
      .ok (some (List.replicate 480 0)) := by
  have hstep : collectStep decReject 10 0 (initState 0) (OpusPacket.mk 5 none true) =
      .ok (startSeg (initState 0) (OpusPacket.mk 5 none true)) :=
    collectStep_isStart decReject 10 0 _ _ (by norm_num) rfl
  have hstart : startSeg (initState 0) (OpusPacket.mk 5 none true) =
      ⟨[], some ⟨5, []⟩, 0, 5⟩ := by
    rw [startSeg, initState]
    norm_num [min_def, max_def]
  rw [opusToPCM, List.foldlM_cons, hstep, except_bind_ok, List.foldlM_nil, except_pure,
    except_map_ok, hstart, finalize_single_empty]
  have hq : ((5 : ℚ) - 0) * (BYTES_PER_MS : ℚ) / 4 = ((240 : ℤ) : ℚ) := by
    norm_num [BYTES_PER_MS]
  rw [hq, Int.floor_intCast, show (240 : ℤ).toNat * 4 / 2 = 480 from by decide]

/-- C4 counterexample: a range containing a single marker packet (an
in-range segment with no decodable audio) makes `opusToPCM` return an
allocated silent buffer, where the claim requires the null result. -/
theorem opusToPCM_marker_only_counterexample :
    opusToPCM decReject [OpusPacket.mk 5 none true] 10 0 =
      Except.ok (some (List.replicate 480 0))
    ∧ (Except.ok (some (List.replicate 480 (0 : ℤ))) : Except Unit (Option (List ℤ))) ≠
        Except.ok none :=
  ⟨opusToPCM_marker_only_eval, fun h => Option.noConfusion (Except.ok.inj h)⟩

/-- Witness for C4 on a packet outside the requested range. -/
theorem opusToPCM_none_iff_witness :
    opusToPCM decReject [OpusPacket.mk 20 none true] 10 0 = Except.ok none ↔
      ∀ p ∈ [OpusPacket.mk 20 none true], p.timestamp < 0 ∨ (0 : ℚ) + 10 < p.timestamp :=
  opusToPCM_none_iff decReject [OpusPacket.mk 20 none true] 10 0

/-- Evaluation of the engine on a single decodable 960-byte packet at
t = 1000 with duration 5000 from t0 = 0: the packet opens a segment
without being decoded, so the output spans 0..1000 ms as 192000 bytes
(96000 samples) of silence. -/
lemma opusToPCM_single_packet_eval :
    opusToPCM dec960 [OpusPacket.mk 1000 (some [1]) false] 5000 0 =
      .ok (some (List.replicate 96000 0)) := by
  have hstep : collectStep dec960 5000 0 (initState 0) (OpusPacket.mk 1000 (some [1]) false) =
      .ok (startSeg (initState 0) (OpusPacket.mk 1000 (some [1]) false)) :=
    collectStep_none dec960 5000 0 _ _ (by norm_num) rfl rfl
  have hstart : startSeg (initState 0) (OpusPacket.mk 1000 (some [1]) false) =
      ⟨[], some ⟨1000, []⟩, 0, 1000⟩ := by
    rw [startSeg, initState]
    norm_num [min_def, max_def]
  rw [opusToPCM, List.foldlM_cons, hstep, except_bind_ok, List.foldlM_nil, except_pure,
    except_map_ok, hstart, finalize_single_empty]
  have hq : ((1000 : ℚ) - 0) * (BYTES_PER_MS : ℚ) / 4 = ((48000 : ℤ) : ℚ) := by
    norm_num [BYTES_PER_MS]
  rw [hq, Int.floor_intCast, show (48000 : ℤ).toNat * 4 / 2 = 96000 from by decide]

/-- C5 counterexample: in the scenario of the claim (one decodable packet
of 960 PCM bytes at t = 1000, duration 5000, start 0) the output buffer
has 192000 bytes, not 960, and it contains silent samples. -/
theorem opusToPCM_single_packet_counterexample :
    opusToPCM dec960 [OpusPacket.mk 1000 (some [1]) false] 5000 0 =
      Except.ok (some (List.replicate 96000 0))
    ∧ 2 * (List.replicate 96000 (0 : ℤ)).length ≠ 960
    ∧ (0 : ℤ) ∈ List.replicate 96000 (0 : ℤ) :=
  ⟨opusToPCM_single_packet_eval, by rw [List.length_replicate]; decide,
    List.mem_replicate.mpr ⟨by decide, rfl⟩⟩

/-- C5 amended: in the scenario of the claim the lone in-range packet
only opens a segment and its payload is never decoded, so the output is
the buffer spanning t0 = 0 to t = 1000, 192000 bytes (96000 samples),
with every sample silent. -/
theorem opusToPCM_single_packet_amended :
    opusToPCM dec960 [OpusPacket.mk 1000 (some [1]) false] 5000 0 =
      Except.ok (some (List.replicate 96000 0))
    ∧ 2 * (List.replicate 96000 (0 : ℤ)).length = 192000
    ∧ ∀ s ∈ List.replicate 96000 (0 : ℤ), s = 0 :=
  ⟨opusToPCM_single_packet_eval, by rw [List.length_replicate],
    fun s hs => List.eq_of_mem_replicate hs⟩

/-- Evaluation of the engine on a marker followed by a packet the decoder
rejects: the whole reconstruction errors. -/
lemma opusToPCM_badframe_eval :
    opusToPCM decBadFrame [OpusPacket.mk 0 none true, OpusPacket.mk 1 (some [9]) false] 10 0 =
      .error () := by
  have hstep1 : collectStep decBadFrame 10 0 (initState 0) (OpusPacket.mk 0 none true) =
      .ok (startSeg (initState 0) (OpusPacket.mk 0 none true)) :=
    collectStep_isStart decBadFrame 10 0 _ _ (by norm_num) rfl
  have hstep2 : collectStep decBadFrame 10 0
      (startSeg (initState 0) (OpusPacket.mk 0 none true))
      (OpusPacket.mk 1 (some [9]) false) = .error () := by
    rw [collectStep_some decBadFrame 10 0 _ _ ⟨0, []⟩ (by norm_num) rfl rfl]
    rfl
  rw [opusToPCM, List.foldlM_cons, hstep1, except_bind_ok, List.foldlM_cons, hstep2,
    except_bind_error, except_map_error]

/-- Evaluation of the engine on a marker, a rejected packet and a
decodable packet: the error from the second packet aborts the run, the
third packet is never reached. -/
lemma opusToPCM_badframe_more_eval :
    opusToPCM decBadFrame [OpusPacket.mk 0 none true, OpusPacket.mk 1 (some [9]) false,
      OpusPacket.mk 2 (some [1]) false] 10 0 = .error () := by
  have hstep1 : collectStep decBadFrame 10 0 (initState 0) (OpusPacket.mk 0 none true) =
      .ok (startSeg (initState 0) (OpusPacket.mk 0 none true)) :=
    collectStep_isStart decBadFrame 10 0 _ _ (by norm_num) rfl
  have hstep2 : collectStep decBadFrame 10 0
      (startSeg (initState 0) (OpusPacket.mk 0 none true))
      (OpusPacket.mk 1 (some [9]) false) = .error () := by
    rw [collectStep_some decBadFrame 10 0 _ _ ⟨0, []⟩ (by norm_num) rfl rfl]
    rfl
  rw [opusToPCM, List.foldlM_cons, hstep1, except_bind_ok, List.foldlM_cons, hstep2,
    except_bind_error, except_map_error]

/-- C9 counterexample: with a marker, one payload the decoder rejects and
one decodable payload in range, `opusToPCM` propagates the error and
reconstructs nothing, instead of skipping the bad frame and continuing. -/
theorem opusToPCM_decode_failure_counterexample :
    opusToPCM decBadFrame [OpusPacket.mk 0 none true, OpusPacket.mk 1 (some [9]) false,
        OpusPacket.mk 2 (some [1]) false] 10 0 = Except.error ()
    ∧ ¬∃ buf : Option (List ℤ),
        opusToPCM decBadFrame [OpusPacket.mk 0 none true, OpusPacket.mk 1 (some [9]) false,
          OpusPacket.mk 2 (some [1]) false] 10 0 = Except.ok buf := by
  refine ⟨opusToPCM_badframe_more_eval, ?_⟩
  rw [opusToPCM_badframe_more_eval]
  rintro ⟨buf, hbuf⟩
  exact Except.noConfusion hbuf

/-- Witness for C9: the errored two-packet run still errors after a
decodable packet is appended. -/
theorem opusToPCM_error_aborts_witness :
    opusToPCM decBadFrame [OpusPacket.mk 0 none true, OpusPacket.mk 1 (some [9]) false] 10 0 =
      Except.error ()
    ∧ opusToPCM decBadFrame ([OpusPacket.mk 0 none true, OpusPacket.mk 1 (some [9]) false] ++
        [OpusPacket.mk 2 (some [1]) false]) 10 0 = Except.error () :=
  ⟨opusToPCM_badframe_eval,
    opusToPCM_error_aborts decBadFrame [OpusPacket.mk 0 none true, OpusPacket.mk 1 (some [9]) false]
      [OpusPacket.mk 2 (some [1]) false] 10 0 opusToPCM_badframe_eval⟩
